import Mathlib

/-!
# Verification of the movie-backend core (accounts, sessions, watchlist, comments)

Shallow embedding of the Express/Mongoose backend found in `src/server.js`
(three concatenated variants) and `src/unnamed/part_000` (a fourth variant).
Pure-functional state passing replaces the MongoDB store; the cryptographic
primitives (`bcrypt`, `crypto.randomBytes`) are modelled symbolically:

* a bcrypt value is either a plaintext string or a salted hash of a value;
  `compareSync s h` succeeds exactly when `h` is the hash of plaintext `s`,
  capturing that a double-hashed value no longer matches the password;
* `crypto.randomBytes(128).toString("hex")` is modelled by a supply counter:
  the n-th draw yields the token `Tok.gen n`, so draws are pairwise distinct
  (the collision probability being negligible for 128 random bytes);
* Mongoose document `_id` generation is a second counter, and `Date.now` is a
  logical clock advanced on every accepted comment request.

Mongoose behaviours relevant to the claims are embedded from their documented
semantics: `findOne` returns the first match in insertion order, `updateOne` /
`findOneAndUpdate` rewrite only the first matching document, an update
document without atomic operators is interpreted as a `$set` of its fields,
`$push` appends and applies subdocument defaults (`createdAt`), `$pull`
removes every matching array element, and the `pre("save")` hook runs with
mongoose dirty-tracking (`isModified`).
-/

namespace MovieBackend

/-- bcrypt values: a plaintext string, or a salted one-way hash of a value.
`hashed (plain s)` is the stored credential for password `s`; hashing an
already-hashed value yields `hashed (hashed _)`, which no plaintext matches. -/
inductive Pw where
  | plain (s : String)
  | hashed (p : Pw)
deriving DecidableEq, Repr

/-- Model of `bcrypt.hashSync(value, salt)`. -/
def hashSync (p : Pw) : Pw := Pw.hashed p

/-- Model of `bcrypt.compareSync(plaintext, stored)`: true exactly when `stored` is the
hash of the plaintext. -/
def compareSync (s : String) (stored : Pw) : Bool :=
  stored = Pw.hashed (Pw.plain s)

/-- Access-token values: `gen n` is the n-th string drawn from
`crypto.randomBytes(128).toString("hex")`; `zero` is the literal string `"0"`
stored by the logout endpoint of `src/unnamed/part_000`. -/
inductive Tok where
  | gen (n : Nat)
  | zero
deriving DecidableEq, Repr

/-- A document of the `User` collection, together with mongoose's in-memory
dirty flag for the `password` path (`isModified("password")`). Documents
loaded from the store always carry `pwModified = false`. -/
structure UserDoc where
  id : Nat
  username : String
  email : String
  password : Pw
  accessToken : Tok
  pwModified : Bool
deriving DecidableEq, Repr

/-- A document of the `WatchMovie` collection (`watchMovieSchema`). -/
structure WatchDoc where
  id : Nat
  userId : Nat
  movieId : Nat
  watchlist : Bool
deriving DecidableEq, Repr

/-- A comment subdocument of `ratingSchema.comments`. -/
structure CommentDoc where
  id : Nat
  comment : String
  username : String
  createdAt : Nat
deriving DecidableEq, Repr

/-- A document of the `Rating` collection (`ratingSchema`). -/
structure RatingDoc where
  id : Nat
  userId : Nat
  movieId : Nat
  rating : Int
  comments : List CommentDoc
deriving DecidableEq, Repr

/-- The persistent store plus the two freshness supplies and the clock.
Collections are lists in insertion order, matching the default order in
which MongoDB's `findOne`/`find` visit documents. -/
structure DB where
  users : List UserDoc
  watchMovies : List WatchDoc
  ratings : List RatingDoc
  tokenCtr : Nat
  idCtr : Nat
  clock : Nat
deriving DecidableEq, Repr

/-- The store of a freshly connected, empty database. -/
def dbEmpty : DB := ⟨[], [], [], 0, 0, 0⟩

/-! ## Credential store and sessions -/

/-- The `userSchema.pre("save")` hook followed by the persist step: the
password is re-hashed exactly when the `password` path is dirty
(`isModified("password")`), and the saved document is clean. -/
def saveDoc (u : UserDoc) : UserDoc :=
  if u.pwModified then
    { u with password := hashSync u.password, pwModified := false }
  else u

/-- The `POST /users` signup handler: builds a `User` with the schema-default access
token (a fresh random draw) and the plaintext password — which marks the
`password` path modified — then saves it. Returns `(store, userId, accessToken)`.
Field validation (lengths, email format, uniqueness) is out of scope here. -/
def signup (db : DB) (uname email pw : String) : DB × Nat × Tok :=
  let u : UserDoc :=
    { id := db.idCtr, username := uname, email := email,
      password := Pw.plain pw, accessToken := Tok.gen db.tokenCtr,
      pwModified := true }
  let u' := saveDoc u
  ({ db with users := db.users ++ [u'], idCtr := db.idCtr + 1,
             tokenCtr := db.tokenCtr + 1 },
   u'.id, u'.accessToken)

/-- Replace every user whose `_id` matches (mongoose `save` persists by id). -/
def putUser (us : List UserDoc) (id : Nat) (u' : UserDoc) : List UserDoc :=
  us.map fun v => if v.id = id then u' else v

/-- The `POST /sessions` handler in `src/unnamed/part_000` and variants 2–3 of
`src/server.js`: look up by username, compare the password against the stored
hash, and on success draw a fresh token, assign it to `accessToken` and save
the document (the `password` path is untouched, so the hook does not re-hash).
Returns the new store and the token of the 201 response, or `none` for the
404 `ERR_LOGIN_FAILED` response. -/
def login (db : DB) (uname pw : String) : DB × Option Tok :=
  match db.users.find? (fun u => u.username = uname) with
  | none => (db, none)
  | some u =>
    if compareSync pw u.password then
      let t := Tok.gen db.tokenCtr
      let u' := saveDoc { u with accessToken := t }
      ({ db with users := putUser db.users u.id u',
                 tokenCtr := db.tokenCtr + 1 }, some t)
    else (db, none)

/-- The store a successful rotating login leaves behind: the found user's
document with the fresh token assigned is saved, and the token supply has
advanced by one draw. -/
def loginSuccessStore (db : DB) (u : UserDoc) : DB :=
  let u' := saveDoc { u with accessToken := Tok.gen db.tokenCtr }
  { db with users := putUser db.users u.id u', tokenCtr := db.tokenCtr + 1 }

/-- The `POST /sessions` handler in variant 1 of `src/server.js`: same lookup and
password check, but the stored `accessToken` is returned unchanged — no new
token is drawn and nothing is saved. -/
def loginV1 (db : DB) (uname pw : String) : DB × Option Tok :=
  match db.users.find? (fun u => u.username = uname) with
  | none => (db, none)
  | some u =>
    if compareSync pw u.password then (db, some u.accessToken)
    else (db, none)

/-- The `authenticateUser` middleware:
`User.findOne({ accessToken: req.header("Authorization") })`; `some u` lets
the request through with `req.user = u`, `none` is the 401
`ERR_AUTHENTICATION` response. -/
def authenticateUser (db : DB) (presented : Tok) : Option UserDoc :=
  db.users.find? (fun u => u.accessToken = presented)

/-- Semantics of `updateOne`: rewrite the first document satisfying the filter. -/
def updateOneUser (p : UserDoc → Bool) (f : UserDoc → UserDoc) :
    List UserDoc → List UserDoc
  | [] => []
  | u :: us => if p u then f u :: us else u :: updateOneUser p f us

/-- The `POST /sessions/logout` handler in `src/unnamed/part_000`: after
`authenticateUser`, `User.updateOne({accessToken}, {accessToken: "0"})`
stores the sentinel string `"0"` as the account's token. Returns `false`
when authentication failed (401, no mutation). -/
def logout (db : DB) (presented : Tok) : DB × Bool :=
  match authenticateUser db presented with
  | none => (db, false)
  | some _ =>
    let us := updateOneUser (fun u => u.accessToken = presented)
      (fun u => { u with accessToken := Tok.zero }) db.users
    ({ db with users := us }, true)

/-! ## Watchlist ledger -/

/-- The filter `{userId: u, movieId: m}` on `WatchMovie` documents. -/
def watchKey (u m : Nat) (w : WatchDoc) : Bool :=
  w.userId = u && w.movieId = m

/-- The JSON body of `PUT /users/:userId/watchlist`: `movieId` and
`watchlist` are the documented fields; a client may also include a `userId`
field, which the update branch applies verbatim. -/
structure PutBody where
  movieId : Nat
  watchlist : Bool
  userId : Option Nat
deriving DecidableEq, Repr

/-- The `$set` a body of `PUT /users/:userId/watchlist` performs on a
matched document: every field present in the body is written. -/
def updWatch (body : PutBody) (w : WatchDoc) : WatchDoc :=
  { w with movieId := body.movieId, watchlist := body.watchlist,
           userId := body.userId.getD w.userId }

/-- Semantics of `findOneAndUpdate({userId: u, movieId: m}, req.body, {new: true})`:
the update document has no atomic operators, so mongoose interprets it as a
`$set` of the body's fields on the first matching document; `{new: true}`
returns the updated document. -/
def findOneAndUpdateWatch (u m : Nat) (body : PutBody) :
    List WatchDoc → List WatchDoc × Option WatchDoc
  | [] => ([], none)
  | w :: ws =>
    if watchKey u m w then (updWatch body w :: ws, some (updWatch body w))
    else
      let r := findOneAndUpdateWatch u m body ws
      (w :: r.1, r.2)

/-- Phase 1 of `PUT /users/:userId/watchlist`:
`WatchMovie.findOne({userId, movieId})`, reduced to its truth value. -/
def watchExists (db : DB) (paramUserId : Nat) (m : Nat) : Bool :=
  (db.watchMovies.find? (watchKey paramUserId m)).isSome

/-- The create branch: `new WatchMovie({userId, movieId, watchlist}).save()`
with `userId` taken from the path parameter. -/
def watchCreate (db : DB) (paramUserId : Nat) (body : PutBody) : DB :=
  let w : WatchDoc := { id := db.idCtr, userId := paramUserId,
                        movieId := body.movieId, watchlist := body.watchlist }
  { db with watchMovies := db.watchMovies ++ [w], idCtr := db.idCtr + 1 }

/-- The update branch (`findOneAndUpdate` on the first matching document). -/
def watchUpdate (db : DB) (paramUserId : Nat) (body : PutBody) : DB :=
  { db with
    watchMovies := (findOneAndUpdateWatch paramUserId body.movieId body
      db.watchMovies).1 }

/-- Phase 2 of the PUT handler: branch on the result of the existence check.
The check and this step are separate awaited store calls in the source, so a
concurrent request may run between them. -/
def watchWrite (db : DB) (existed : Bool) (paramUserId : Nat)
    (body : PutBody) : DB :=
  if existed then watchUpdate db paramUserId body
  else watchCreate db paramUserId body

/-- The whole `PUT /users/:userId/watchlist` handler run in isolation
(variants 2 and 3 of `src/server.js` agree on this logic). -/
def putWatchlist (db : DB) (paramUserId : Nat) (body : PutBody) : DB :=
  watchWrite db (watchExists db paramUserId body.movieId) paramUserId body

/-- The operation `setWanted` as the spec names it: a PUT whose body carries exactly the
documented fields `movieId` and `watchlist`. -/
def setWanted (db : DB) (u m : Nat) (b : Bool) : DB :=
  putWatchlist db u { movieId := m, watchlist := b, userId := none }

/-- The documents currently stored for the pair `(u, m)`. -/
def pairEntries (db : DB) (u m : Nat) : List WatchDoc :=
  db.watchMovies.filter (watchKey u m)

/-- The `GET /users/:userId/watchlist` handler:
`WatchMovie.find({userId, watchlist: true})`. -/
def getWatchlist (db : DB) (u : Nat) : List WatchDoc :=
  db.watchMovies.filter (fun w => w.userId = u && w.watchlist = true)

/-- A sequence of `setWanted` writes for one pair, left to right. -/
def runSets (db : DB) (u m : Nat) (bs : List Bool) : DB :=
  bs.foldl (fun d b => setWanted d u m b) db

/-! ## Comment ledger -/

/-- The filter `{userId: u, movieId: m}` on `Rating` documents. -/
def ratingKey (u m : Nat) (r : RatingDoc) : Bool :=
  r.userId = u && r.movieId = m

/-- The `Rating` documents stored for the key `(u, m)` — the "thread
records" of the spec. -/
def threads (db : DB) (u m : Nat) : List RatingDoc :=
  db.ratings.filter (ratingKey u m)

/-- The update `{$push: {comments: {comment, username}}}` on the first document
matching `{userId: u, movieId: m}`: the subdocument is appended with its
schema defaults (`createdAt: Date.now`, a generated `_id`) filled in. -/
def findOneAndPush (u m : Nat) (c : CommentDoc) :
    List RatingDoc → List RatingDoc
  | [] => []
  | r :: rs =>
    if ratingKey u m r then { r with comments := r.comments ++ [c] } :: rs
    else r :: findOneAndPush u m c rs

/-- The JSON body of `POST /comments/:movieId`: the handler destructures
only `userId`, `comment` and `username`; any client-supplied `createdAt` is
ignored. -/
structure CommentBody where
  userId : Nat
  comment : String
  username : String
  createdAt : Option Nat
deriving DecidableEq, Repr

/-- The `POST /comments/:movieId` handler, variant 2 of `src/server.js`: if no `Rating`
document exists for `(userId, movieId)` one is created with an empty comment
list (rating defaulting to 0), then the comment is pushed onto the first
matching document; its timestamp is the server clock at acceptance. -/
def addCommentV2 (db : DB) (m : Nat) (body : CommentBody) : DB :=
  let u := body.userId
  let db1 :=
    if (db.ratings.find? (ratingKey u m)).isNone then
      { db with ratings := db.ratings ++ [(⟨db.idCtr, u, m, 0, []⟩ : RatingDoc)],
                idCtr := db.idCtr + 1 }
    else db
  let c : CommentDoc := ⟨db1.idCtr, body.comment, body.username, db1.clock⟩
  { db1 with ratings := findOneAndPush u m c db1.ratings,
             idCtr := db1.idCtr + 1, clock := db1.clock + 1 }

/-- A sequence of variant-2 comment posts for one movie, left to right. -/
def runAdds (db : DB) (m : Nat) (ps : List CommentBody) : DB :=
  ps.foldl (fun d p => addCommentV2 d m p) db

/-- The `POST /comments/:movieId` handler, variant 3 of `src/server.js`: a fresh
`Rating` document is created unconditionally, then `updateOne` pushes the
comment onto the first document matching `(userId, movieId)`. -/
def addCommentV3 (db : DB) (m : Nat) (body : CommentBody) : DB :=
  let u := body.userId
  let db1 :=
    { db with ratings := db.ratings ++ [(⟨db.idCtr, u, m, 0, []⟩ : RatingDoc)],
              idCtr := db.idCtr + 1 }
  let c : CommentDoc := ⟨db1.idCtr, body.comment, body.username, db1.clock⟩
  { db1 with ratings := findOneAndPush u m c db1.ratings,
             idCtr := db1.idCtr + 1, clock := db1.clock + 1 }

/-- The comparison `(a, b) => b.createdAt - a.createdAt` of the sort in
`GET /comments/:movieId` (variant 2): `a` may stay before `b` exactly when
the comparator is `≤ 0`, i.e. descending by `createdAt`. -/
def byDateDesc (a b : CommentDoc) : Prop := b.createdAt ≤ a.createdAt

instance : DecidableRel byDateDesc :=
  fun a b => Nat.decLe b.createdAt a.createdAt

instance : IsTotal CommentDoc byDateDesc :=
  ⟨fun a b => Nat.le_total b.createdAt a.createdAt⟩

instance : IsTrans CommentDoc byDateDesc :=
  ⟨fun _ _ _ h h' => Nat.le_trans h' h⟩

/-- All comments stored under `movieId = m`, flattened in storage order:
`Rating.find({movieId})` visits documents in insertion order and each
document's `comments` array is in push order. -/
def flattenComments (db : DB) (m : Nat) : List CommentDoc :=
  ((db.ratings.filter (fun r => r.movieId = m)).map RatingDoc.comments).flatten

/-- The `GET /comments/:movieId` handler, variant 2 of `src/server.js`: flatten the
matching documents' comment arrays and sort with the stable
`Array.prototype.sort` under `(a, b) => b.createdAt - a.createdAt`. -/
def getCommentsV2 (db : DB) (m : Nat) : List CommentDoc :=
  List.insertionSort byDateDesc (flattenComments db m)

/-- The `GET /comments/:movieId` handler, variant 3 of `src/server.js`: the raw result
of `Rating.find({movieId})` — no flattening and no sorting. -/
def getCommentsV3 (db : DB) (m : Nat) : List RatingDoc :=
  db.ratings.filter (fun r => r.movieId = m)

/-- The `updateOne` result surfaced to the DELETE handler (`n` /
`nModified` in the MongoDB driver's reply). -/
structure UpdateResult where
  matchedCount : Nat
  modifiedCount : Nat
deriving DecidableEq, Repr

/-- Semantics of `Rating.updateOne({userId, movieId}, {$pull: {comments: {_id}}})`:
on the first matching document, remove every comment whose `_id` equals the
given one; `nModified` is 1 exactly when such a comment was present. -/
def updateOnePull (u m cid : Nat) :
    List RatingDoc → List RatingDoc × UpdateResult
  | [] => ([], ⟨0, 0⟩)
  | r :: rs =>
    if ratingKey u m r then
      (({ r with comments := r.comments.filter (fun c => c.id ≠ cid) }) :: rs,
       ⟨1, if r.comments.any (fun c => c.id = cid) then 1 else 0⟩)
    else
      let res := updateOnePull u m cid rs
      (r :: res.1, res.2)

/-- The `DELETE /comments/:movieId` handler (identical in variants 2 and 3): the pull
above; the handler's `if (deleteComment)` is always taken since the driver
always returns a result object, and the result is echoed in the response. -/
def deleteComment (db : DB) (m u cid : Nat) : DB × UpdateResult :=
  let r := updateOnePull u m cid db.ratings
  ({ db with ratings := r.1 }, r.2)

/-! ## Account/session traces

To speak about "every token previously issued for that account", runs of the
account endpoints are modelled as operation traces from the empty store,
collecting the tokens returned by signup and successful login responses. -/

/-- One request to an account/session endpoint (rotating-login variants). -/
inductive Op where
  | signup (uname email pw : String)
  | login (uname pw : String)
  | logout (presented : Tok)
deriving DecidableEq, Repr

/-- Execute one request; the token list holds the tokens issued (returned to
the client) by that request. -/
def runOp (db : DB) : Op → DB × List Tok
  | .signup un em pw => let r := signup db un em pw; (r.1, [r.2.2])
  | .login un pw =>
    match login db un pw with
    | (db', some t) => (db', [t])
    | (db', none) => (db', [])
  | .logout h => ((logout db h).1, [])

/-- Execute a trace of requests, collecting all issued tokens in order. -/
def run : DB → List Op → DB × List Tok
  | db, [] => (db, [])
  | db, op :: ops =>
    let r := runOp db op
    let r' := run r.1 ops
    (r'.1, r.2 ++ r'.2)

/-- Every generated token stored in the user collection was drawn before the
current value of the supply counter. -/
def tokBound (c : Nat) : Tok → Prop
  | .gen n => n < c
  | .zero => True

instance (c : Nat) (t : Tok) : Decidable (tokBound c t) :=
  match t with
  | .gen n => Nat.decLt n c
  | .zero => isTrue trivial

/-- Two token values that are not the same random draw (the sentinel is not
a draw at all). -/
def tokDistinct : Tok → Tok → Prop
  | .gen m, .gen n => m ≠ n
  | _, _ => True

instance (a b : Tok) : Decidable (tokDistinct a b) :=
  match a, b with
  | .gen m, .gen n => inferInstanceAs (Decidable (m ≠ n))
  | .gen _, .zero => isTrue trivial
  | .zero, _ => isTrue trivial

/-- Store well-formedness maintained by the account endpoints: ids are below
the id supply, stored generated tokens are below the token supply, persisted
documents carry no pending `password` modification (mongoose documents are
clean after a save), ids are pairwise distinct, and no two users hold the
same generated token. -/
def good (db : DB) : Prop :=
  (∀ u ∈ db.users, u.id < db.idCtr) ∧
  (∀ u ∈ db.users, tokBound db.tokenCtr u.accessToken) ∧
  (∀ u ∈ db.users, u.pwModified = false) ∧
  db.users.Pairwise (fun a b => a.id ≠ b.id) ∧
  db.users.Pairwise (fun a b => tokDistinct a.accessToken b.accessToken)

/-! ## Concrete example stores used to instantiate the main theorems -/

/-- The account document created by signing up alice on the empty store. -/
def userAlice : UserDoc :=
  ⟨0, "alice", "alice@x.com", Pw.hashed (Pw.plain "hunter2"), Tok.gen 0, false⟩

/-- The store after alice's signup. -/
def dbAlice : DB := ⟨[userAlice], [], [], 1, 1, 0⟩

/-- A `Rating` document holding two of alice's comments on movie 5. -/
def ratingDocA : RatingDoc :=
  ⟨0, 1, 5, 0, [⟨1, "great film", "alice", 0⟩, ⟨2, "meh", "alice", 1⟩]⟩

/-- A store whose only thread record is `ratingDocA`. -/
def dbThread : DB := ⟨[], [], [ratingDocA], 0, 3, 2⟩

/-- The store after one variant-2 comment post on the empty store. -/
def dbC7 : DB := addCommentV2 dbEmpty 5 ⟨1, "great film", "alice", none⟩

/-- A store holding one watchlist entry `(user 1, movie 5, wanted: false)`. -/
def dbWatch : DB := ⟨[], [⟨7, 1, 5, false⟩], [], 0, 8, 0⟩

/-! ## Lemmas about the watchlist ledger -/

theorem watchKey_iff (u m : Nat) (w : WatchDoc) :
    watchKey u m w = true ↔ w.userId = u ∧ w.movieId = m := by
  simp [watchKey]

theorem findOneAndUpdateWatch_filter (u m : Nat) (body : PutBody)
    (ws : List WatchDoc) (w0 : WatchDoc)
    (h : ws.filter (watchKey u m) = [w0])
    (hm : watchKey u m (updWatch body w0) = true) :
    (findOneAndUpdateWatch u m body ws).1.filter (watchKey u m)
        = [updWatch body w0] ∧
    ∀ w ∈ ws, watchKey u m w = false →
      w ∈ (findOneAndUpdateWatch u m body ws).1 := by
  induction ws with
  | nil => simp at h
  | cons w ws ih =>
    by_cases hw : watchKey u m w = true
    · have hws : w = w0 ∧ ws.filter (watchKey u m) = [] := by
        have := h
        rw [List.filter_cons_of_pos hw] at this
        exact ⟨(List.cons_eq_cons.mp this).1, (List.cons_eq_cons.mp this).2⟩
      obtain ⟨rfl, hnil⟩ := hws
      refine ⟨?_, ?_⟩
      · simp only [findOneAndUpdateWatch, hw, if_pos]
        rw [List.filter_cons_of_pos hm, hnil]
      · intro v hv hvf
        rcases List.mem_cons.mp hv with rfl | hv
        · rw [hw] at hvf; cases hvf
        · simp only [findOneAndUpdateWatch, hw, if_pos]
          exact List.mem_cons_of_mem _ hv
    · have hwf : watchKey u m w = false := Bool.eq_false_iff.mpr hw
      have h' : ws.filter (watchKey u m) = [w0] := by
        rwa [List.filter_cons_of_neg hw] at h
      obtain ⟨ih1, ih2⟩ := ih h'
      refine ⟨?_, ?_⟩
      · simp only [findOneAndUpdateWatch, hwf]
        rw [if_neg (by simp), List.filter_cons_of_neg (by simp [hwf]), ih1]
      · intro v hv hvf
        rcases List.mem_cons.mp hv with rfl | hv
        · simp only [findOneAndUpdateWatch, hwf]
          rw [if_neg (by simp)]
          exact List.mem_cons_self _ _
        · simp only [findOneAndUpdateWatch, hwf]
          rw [if_neg (by simp)]
          exact List.mem_cons_of_mem _ (ih2 v hv hvf)

theorem setWanted_pairEntries (db : DB) (u m : Nat) (b : Bool)
    (h : (pairEntries db u m).length ≤ 1) :
    ∃ w, pairEntries (setWanted db u m b) u m = [w] ∧
      w.userId = u ∧ w.movieId = m ∧ w.watchlist = b := by
  by_cases he : watchExists db u m = true
  · -- update branch: there is exactly one stored entry for the pair
    obtain ⟨x, hx, hkx⟩ := List.find?_isSome.mp (by simpa [watchExists] using he)
    have hne : pairEntries db u m ≠ [] := by
      intro hnil
      have := (List.filter_eq_nil_iff.mp hnil) x hx
      rw [hkx] at this; exact this rfl
    obtain ⟨w0, hw0⟩ : ∃ w0, pairEntries db u m = [w0] := by
      match hl : pairEntries db u m with
      | [] => exact absurd hl hne
      | [w0] => exact ⟨w0, rfl⟩
      | w0 :: w1 :: l => rw [hl] at h; simp at h
    have hk0 : watchKey u m w0 = true := by
      have : w0 ∈ pairEntries db u m := by rw [hw0]; exact List.mem_cons_self _ _
      exact (List.mem_filter.mp this).2
    have hm0 : watchKey u m
        (updWatch { movieId := m, watchlist := b, userId := none } w0) = true := by
      have := (watchKey_iff u m w0).mp hk0
      simp [watchKey_iff, updWatch, this.1]
    have hfu := findOneAndUpdateWatch_filter u m
      { movieId := m, watchlist := b, userId := none } db.watchMovies w0 hw0 hm0
    refine ⟨updWatch { movieId := m, watchlist := b, userId := none } w0, ?_, ?_, ?_, ?_⟩
    · simpa [setWanted, putWatchlist, he, watchWrite, watchUpdate, pairEntries]
        using hfu.1
    · have := (watchKey_iff u m w0).mp hk0
      simp [updWatch, this.1]
    · simp [updWatch]
    · simp [updWatch]
  · -- create branch
    have hnone : db.watchMovies.find? (watchKey u m) = none := by
      have : ¬ (db.watchMovies.find? (watchKey u m)).isSome = true := by
        simpa [watchExists] using he
      exact Option.not_isSome_iff_eq_none.mp this
    have hnil : db.watchMovies.filter (watchKey u m) = [] :=
      List.filter_eq_nil_iff.mpr (by
        intro a ha hk
        exact (List.find?_eq_none.mp hnone a ha) hk)
    have hef : watchExists db u m = false := Bool.eq_false_iff.mpr he
    refine ⟨⟨db.idCtr, u, m, b⟩, ?_, rfl, rfl, rfl⟩
    simp only [setWanted, putWatchlist, hef, watchWrite, Bool.false_eq_true,
      if_false, watchCreate, pairEntries, List.filter_append, hnil]
    simp [watchKey]

theorem runSets_length (db : DB) (u m : Nat) (bs : List Bool)
    (h : (pairEntries db u m).length ≤ 1) :
    (pairEntries (runSets db u m bs) u m).length ≤ 1 := by
  induction bs generalizing db with
  | nil => exact h
  | cons b bs ih =>
    have hstep := setWanted_pairEntries db u m b h
    obtain ⟨w, hw, -⟩ := hstep
    have : (pairEntries (setWanted db u m b) u m).length ≤ 1 := by
      rw [hw]; exact Nat.le_refl 1
    have hrec := ih (setWanted db u m b) this
    simpa [runSets, List.foldl_cons] using hrec

theorem runSets_last (u m : Nat) (b : Bool) :
    ∀ (bs : List Bool) (db : DB), (pairEntries db u m).length ≤ 1 →
      bs.getLast? = some b →
      ∃ w, pairEntries (runSets db u m bs) u m = [w] ∧ w.watchlist = b := by
  intro bs
  induction bs with
  | nil => intro db _ hb; simp at hb
  | cons b1 bs ih =>
    intro db h hb
    obtain ⟨w1, hw1, -, -, hwb1⟩ := setWanted_pairEntries db u m b1 h
    have h1 : (pairEntries (setWanted db u m b1) u m).length ≤ 1 := by
      rw [hw1]; exact Nat.le_refl 1
    cases bs with
    | nil =>
      have hb1 : b1 = b := by simpa using hb
      subst hb1
      exact ⟨w1, by simpa [runSets] using hw1, hwb1⟩
    | cons b2 bs' =>
      have hb' : (b2 :: bs').getLast? = some b := by simpa using hb
      have := ih (setWanted db u m b1) h1 hb'
      simpa [runSets, List.foldl_cons] using this

/-- C3: For every (owner, movieId) pair and every sequence of `setWanted`
calls for that pair, at most one WatchlistEntry exists for the pair at every
point, and after the sequence the single entry's wanted flag equals the last
value written (last-write-wins); a second `setWanted` for an existing pair
updates the existing record rather than creating a duplicate. -/
theorem C3_watchlist_upsert_last_write_wins (db : DB) (u m : Nat)
    (bs : List Bool) (h : (pairEntries db u m).length ≤ 1) :
    (∀ pre suf, bs = pre ++ suf →
      (pairEntries (runSets db u m pre) u m).length ≤ 1) ∧
    (∀ b, bs.getLast? = some b →
      ∃ w, pairEntries (runSets db u m bs) u m = [w] ∧ w.watchlist = b) := by
  constructor
  · intro pre _ _
    exact runSets_length db u m pre h
  · intro b hb
    exact runSets_last u m b bs db h hb

/-- C8: For every owner and movieId never written before,
`setWanted(ownerId, movieId, false)` creates a WatchlistEntry with
`wanted=false` rather than being a no-op; and for every owner,
`listWanted(ownerId)` returns exactly the owner's entries whose wanted flag
is true, so the entry created or updated with `wanted=false` is excluded
from the result. -/
theorem C8_false_write_creates_and_is_excluded (db : DB) (u m : Nat)
    (h : pairEntries db u m = []) :
    (∃ w, pairEntries (setWanted db u m false) u m = [w] ∧
        w.watchlist = false) ∧
    (∀ (db' : DB) (u' : Nat) (w : WatchDoc),
      w ∈ getWatchlist db' u' ↔
        w ∈ db'.watchMovies ∧ w.userId = u' ∧ w.watchlist = true) ∧
    (∀ w ∈ getWatchlist (setWanted db u m false) u, w.movieId ≠ m) := by
  have h1 : (pairEntries db u m).length ≤ 1 := by rw [h]; simp
  obtain ⟨w0, hw0, hu0, hm0, hb0⟩ := setWanted_pairEntries db u m false h1
  refine ⟨⟨w0, hw0, hb0⟩, ?_, ?_⟩
  · intro db' u' w
    simp [getWatchlist, List.mem_filter]
  · intro w hw hwm
    have hmem : w ∈ (setWanted db u m false).watchMovies ∧
        w.userId = u ∧ w.watchlist = true := by
      simpa [getWatchlist, List.mem_filter] using hw
    have : w ∈ pairEntries (setWanted db u m false) u m := by
      refine List.mem_filter.mpr ⟨hmem.1, ?_⟩
      exact (watchKey_iff u m w).mpr ⟨hmem.2.1, hwm⟩
    rw [hw0] at this
    have : w = w0 := by simpa using this
    rw [this, hb0] at hmem
    exact absurd hmem.2.2 (by simp)

/-- C9: the claim states the check-then-create-or-update write path is
guarded by a unique index or an atomic find-and-modify, so two concurrent
`setWanted` requests for one pair can never both create. The code has no
such guard: `putWatchlist` is literally the two separate store calls
`watchExists` then `watchWrite` (first conjunct), and when two requests for
the same pair both run their existence check before either write — here on
an empty store — both take the create branch and leave two rows for the pair
(second conjunct). -/
theorem C9_race_duplicates :
    (∀ (db : DB) (paramUserId : Nat) (body : PutBody),
      putWatchlist db paramUserId body =
        watchWrite db (watchExists db paramUserId body.movieId)
          paramUserId body) ∧
    (pairEntries
      (watchWrite
        (watchWrite dbEmpty (watchExists dbEmpty 1 42) 1
          { movieId := 42, watchlist := true, userId := none })
        (watchExists dbEmpty 1 42) 1
        { movieId := 42, watchlist := true, userId := none })
      1 42).length = 2 := by
  exact ⟨fun _ _ _ => rfl, by decide⟩

/-- C10: when `setWanted` updates an existing watchlist entry, the stored
document is `$set` with the entire request body: for a body holding exactly
`movieId` and `watchlist`, the entry's owner reference and identifier are
unchanged (first conjunct), but a body additionally holding a `userId`
different from the path owner rewrites the entry's owner reference to that
value (second conjunct, at a concrete store). -/
theorem C10_update_applies_whole_body (db : DB) (u m : Nat) (b : Bool)
    (w0 : WatchDoc) (h : pairEntries db u m = [w0]) :
    (∃ w', pairEntries
        (putWatchlist db u { movieId := m, watchlist := b, userId := none })
        u m = [w'] ∧
      w'.id = w0.id ∧ w'.userId = w0.userId ∧ w'.watchlist = b) ∧
    (putWatchlist ⟨[], [⟨7, 1, 5, false⟩], [], 0, 8, 0⟩ 1
        { movieId := 5, watchlist := true, userId := some 2 }).watchMovies
      = [⟨7, 2, 5, true⟩] := by
  constructor
  · have h1 : (pairEntries db u m).length ≤ 1 := by rw [h]; exact Nat.le_refl 1
    obtain ⟨w, hw, hu, hm', hb⟩ := setWanted_pairEntries db u m b h1
    -- identify the updated entry with `updWatch` of the stored one
    have hk0 : watchKey u m w0 = true := by
      have : w0 ∈ pairEntries db u m := by rw [h]; exact List.mem_cons_self _ _
      exact (List.mem_filter.mp this).2
    have hm0 : watchKey u m
        (updWatch { movieId := m, watchlist := b, userId := none } w0) = true := by
      have := (watchKey_iff u m w0).mp hk0
      simp [watchKey_iff, updWatch, this.1]
    have he : watchExists db u m = true := by
      have : w0 ∈ db.watchMovies ∧ watchKey u m w0 = true := by
        have : w0 ∈ pairEntries db u m := by rw [h]; exact List.mem_cons_self _ _
        exact ⟨(List.mem_filter.mp this).1, (List.mem_filter.mp this).2⟩
      simp only [watchExists, List.find?_isSome]
      exact ⟨w0, this.1, this.2⟩
    have hfu := findOneAndUpdateWatch_filter u m
      { movieId := m, watchlist := b, userId := none } db.watchMovies w0 h hm0
    refine ⟨updWatch { movieId := m, watchlist := b, userId := none } w0, ?_, ?_, ?_, ?_⟩
    · simpa [putWatchlist, he, watchWrite, watchUpdate, pairEntries] using hfu.1
    · simp [updWatch]
    · simp [updWatch]
    · simp [updWatch]
  · decide

/-! ## Lemmas about the comment ledger -/

theorem orderedInsert_filter_time (t : Nat) (a : CommentDoc)
    (l : List CommentDoc) :
    (List.orderedInsert byDateDesc a l).filter (fun c => c.createdAt = t) =
      if a.createdAt = t then
        a :: l.filter (fun c => c.createdAt = t)
      else l.filter (fun c => c.createdAt = t) := by
  induction l with
  | nil => simp [List.orderedInsert, List.filter_cons]
  | cons b l ih =>
    by_cases hab : byDateDesc a b
    · rw [List.orderedInsert_of_le byDateDesc l hab]
      rw [List.filter_cons, List.filter_cons]
      split_ifs <;> simp_all [List.filter_cons]
    · have hba : a.createdAt < b.createdAt := by
        simpa [byDateDesc, Nat.not_le] using hab
      simp only [List.orderedInsert, if_neg hab]
      rw [List.filter_cons, List.filter_cons, ih]
      by_cases hat : a.createdAt = t
      · have hbt : ¬ b.createdAt = t := by omega
        simp [hat, hbt]
      · simp [hat]

theorem insertionSort_filter_time (t : Nat) (l : List CommentDoc) :
    (List.insertionSort byDateDesc l).filter (fun c => c.createdAt = t) =
      l.filter (fun c => c.createdAt = t) := by
  induction l with
  | nil => rfl
  | cons a l ih =>
    simp only [List.insertionSort]
    rw [orderedInsert_filter_time, ih, List.filter_cons]
    by_cases hat : a.createdAt = t <;> simp [hat]

/-- C5 (amended): variant 2 of `GET /comments/:movieId` returns the
comments of all owners' threads for the movie flattened into one sequence,
sorted by `createdAt` descending, and the sort is stable — comments with
identical timestamps keep the relative order they have in the stored
(insertion-ordered) flattening. Variant 3 returns the raw thread documents,
neither flattened nor sorted (see the counterexample). -/
theorem C5_amended_sorted_stable_flatten (db : DB) (m : Nat) :
    (getCommentsV2 db m).Perm (flattenComments db m) ∧
    List.Sorted byDateDesc (getCommentsV2 db m) ∧
    ∀ t, (getCommentsV2 db m).filter (fun c => c.createdAt = t) =
      (flattenComments db m).filter (fun c => c.createdAt = t) := by
  refine ⟨List.perm_insertionSort byDateDesc _, ?_, ?_⟩
  · exact List.sorted_insertionSort byDateDesc _
  · intro t
    exact insertionSort_filter_time t _

/-- C5 counterexample: after Alice comments on movie 5 and Bob comments
later, variant 3 of `GET /comments/:movieId` answers with the thread
documents in storage order, whose comment sequence (Alice's earlier comment
first) is not sorted by `createdAt` descending — so the claim, quantified
over the cited variants, is false for variant 3. -/
theorem C5_counterexample_v3_unsorted :
    ¬ List.Sorted byDateDesc
      (((getCommentsV3
          (addCommentV2 (addCommentV2 dbEmpty 5 ⟨1, "great film", "alice", none⟩)
            5 ⟨2, "meh", "bob", none⟩) 5).map RatingDoc.comments).flatten) := by
  decide

theorem updateOnePull_spec (u m cid : Nat) :
    ∀ (rs : List RatingDoc) (rdoc : RatingDoc),
      rs.filter (ratingKey u m) = [rdoc] →
      (updateOnePull u m cid rs).1.filter (ratingKey u m) =
          [{ rdoc with comments := rdoc.comments.filter (fun c => c.id ≠ cid) }] ∧
      (∀ d ∈ rs, ratingKey u m d = false → d ∈ (updateOnePull u m cid rs).1) ∧
      (updateOnePull u m cid rs).2 =
        ⟨1, if rdoc.comments.any (fun c => c.id = cid) then 1 else 0⟩ := by
  intro rs
  induction rs with
  | nil => intro rdoc h; simp at h
  | cons r rs ih =>
    intro rdoc h
    by_cases hr : ratingKey u m r = true
    · have hrs : r = rdoc ∧ rs.filter (ratingKey u m) = [] := by
        rw [List.filter_cons_of_pos hr] at h
        exact ⟨(List.cons_eq_cons.mp h).1, (List.cons_eq_cons.mp h).2⟩
      obtain ⟨rfl, hnil⟩ := hrs
      have hr' : ratingKey u m
          { r with comments := r.comments.filter (fun c => c.id ≠ cid) } = true := by
        simpa [ratingKey] using hr
      refine ⟨?_, ?_, ?_⟩
      · simp only [updateOnePull, hr, if_pos]
        rw [List.filter_cons_of_pos hr', hnil]
      · intro d hd hdf
        rcases List.mem_cons.mp hd with rfl | hd
        · rw [hr] at hdf; cases hdf
        · simp only [updateOnePull, hr, if_pos]
          exact List.mem_cons_of_mem _ hd
      · simp [updateOnePull, hr]
    · have hrf : ratingKey u m r = false := Bool.eq_false_iff.mpr hr
      have h' : rs.filter (ratingKey u m) = [rdoc] := by
        rwa [List.filter_cons_of_neg hr] at h
      obtain ⟨ih1, ih2, ih3⟩ := ih rdoc h'
      refine ⟨?_, ?_, ?_⟩
      · simp only [updateOnePull, hrf]
        rw [if_neg (by simp), List.filter_cons_of_neg (by simp [hrf]), ih1]
      · intro d hd hdf
        rcases List.mem_cons.mp hd with rfl | hd
        · simp only [updateOnePull, hrf]
          rw [if_neg (by simp)]
          exact List.mem_cons_self _ _
        · simp only [updateOnePull, hrf]
          rw [if_neg (by simp)]
          exact List.mem_cons_of_mem _ (ih2 d hd hdf)
      · simp only [updateOnePull, hrf]
        rw [if_neg (by simp)]
        exact ih3

/-- C6: with a single thread record stored for the scope
`(movieId, ownerId)`, `removeComment` deletes exactly the comments whose
identifier matches `commentId` within that thread, leaves every document
outside the scope in place, and the `updateOne` result the handler echoes
distinguishes an actual removal (`nModified = 1`) from the no-op case where
no comment with that id exists in the scope (`nModified = 0`). -/
theorem C6_remove_scoped_and_signalled (db : DB) (m u cid : Nat)
    (rdoc : RatingDoc) (h : threads db u m = [rdoc]) :
    threads (deleteComment db m u cid).1 u m =
        [{ rdoc with comments := rdoc.comments.filter (fun c => c.id ≠ cid) }] ∧
    (∀ d ∈ db.ratings, ratingKey u m d = false →
      d ∈ (deleteComment db m u cid).1.ratings) ∧
    (deleteComment db m u cid).2.modifiedCount =
      (if rdoc.comments.any (fun c => c.id = cid) then 1 else 0) ∧
    (deleteComment db m u cid).2.matchedCount = 1 := by
  obtain ⟨h1, h2, h3⟩ := updateOnePull_spec u m cid db.ratings rdoc h
  refine ⟨?_, ?_, ?_, ?_⟩
  · simpa [deleteComment, threads] using h1
  · intro d hd hdf
    simpa [deleteComment] using h2 d hd hdf
  · rw [deleteComment]
    simp only [h3]
  · rw [deleteComment]
    simp only [h3]

theorem findOneAndPush_filter (u m : Nat) (c : CommentDoc) :
    ∀ (rs : List RatingDoc) (r0 : RatingDoc),
      rs.filter (ratingKey u m) = [r0] →
      (findOneAndPush u m c rs).filter (ratingKey u m) =
        [{ r0 with comments := r0.comments ++ [c] }] := by
  intro rs
  induction rs with
  | nil => intro r0 h; simp at h
  | cons r rs ih =>
    intro r0 h
    by_cases hr : ratingKey u m r = true
    · have hrs : r = r0 ∧ rs.filter (ratingKey u m) = [] := by
        rw [List.filter_cons_of_pos hr] at h
        exact ⟨(List.cons_eq_cons.mp h).1, (List.cons_eq_cons.mp h).2⟩
      obtain ⟨rfl, hnil⟩ := hrs
      have hr' : ratingKey u m { r with comments := r.comments ++ [c] } = true := by
        simpa [ratingKey] using hr
      simp only [findOneAndPush, hr, if_pos]
      rw [List.filter_cons_of_pos hr', hnil]
    · have hrf : ratingKey u m r = false := Bool.eq_false_iff.mpr hr
      have h' : rs.filter (ratingKey u m) = [r0] := by
        rwa [List.filter_cons_of_neg hr] at h
      simp only [findOneAndPush, hrf]
      rw [if_neg (by simp), List.filter_cons_of_neg (by simp [hrf]), ih r0 h']

theorem addCommentV2_threads_empty (db : DB) (m : Nat) (body : CommentBody)
    (h : threads db body.userId m = []) :
    threads (addCommentV2 db m body) body.userId m =
      [⟨db.idCtr, body.userId, m, 0,
        [⟨db.idCtr + 1, body.comment, body.username, db.clock⟩]⟩] := by
  have hnone : (db.ratings.find? (ratingKey body.userId m)).isNone = true := by
    rw [Option.isNone_iff_eq_none, List.find?_eq_none]
    intro x hx hk
    exact (List.filter_eq_nil_iff.mp h) x hx hk
  have hkey : ratingKey body.userId m
      (⟨db.idCtr, body.userId, m, 0, []⟩ : RatingDoc) = true := by
    simp [ratingKey]
  have hfilter : (db.ratings ++
        [(⟨db.idCtr, body.userId, m, 0, []⟩ : RatingDoc)]).filter
      (ratingKey body.userId m) = [⟨db.idCtr, body.userId, m, 0, []⟩] := by
    rw [List.filter_append,
      show List.filter (ratingKey body.userId m) db.ratings = [] from h]
    simp [hkey]
  have := findOneAndPush_filter body.userId m
    ⟨db.idCtr + 1, body.comment, body.username, db.clock⟩
    (db.ratings ++ [⟨db.idCtr, body.userId, m, 0, []⟩])
    ⟨db.idCtr, body.userId, m, 0, []⟩ hfilter
  simpa [addCommentV2, threads, hnone] using this

theorem addCommentV2_threads_existing (db : DB) (m : Nat) (body : CommentBody)
    (r0 : RatingDoc) (h : threads db body.userId m = [r0]) :
    threads (addCommentV2 db m body) body.userId m =
      [{ r0 with comments := r0.comments ++
          [⟨db.idCtr, body.comment, body.username, db.clock⟩] }] := by
  have hmem : r0 ∈ db.ratings ∧ ratingKey body.userId m r0 = true := by
    have : r0 ∈ threads db body.userId m := by
      rw [h]; exact List.mem_cons_self _ _
    exact ⟨(List.mem_filter.mp this).1, (List.mem_filter.mp this).2⟩
  have hsome : (db.ratings.find? (ratingKey body.userId m)).isNone = false := by
    have : (db.ratings.find? (ratingKey body.userId m)).isSome = true :=
      List.find?_isSome.mpr ⟨r0, hmem.1, hmem.2⟩
    simp [Option.isNone_eq_false_iff, Option.isSome_iff_ne_none] at this ⊢
    exact this
  have := findOneAndPush_filter body.userId m
    ⟨db.idCtr, body.comment, body.username, db.clock⟩ db.ratings r0 h
  simpa [addCommentV2, threads, hsome] using this

theorem runAdds_length (m u : Nat) :
    ∀ (ps : List CommentBody) (db : DB), (∀ p ∈ ps, p.userId = u) →
      (threads db u m).length ≤ 1 →
      (threads (runAdds db m ps) u m).length ≤ 1 := by
  intro ps
  induction ps with
  | nil => intro db _ h; exact h
  | cons p ps ih =>
    intro db hu h
    have hp : p.userId = u := hu p (List.mem_cons_self _ _)
    have hstep : (threads (addCommentV2 db m p) u m).length ≤ 1 := by
      match hl : threads db u m with
      | [] =>
        have := addCommentV2_threads_empty db m p (by rw [hp]; exact hl)
        rw [hp] at this; rw [this]; exact Nat.le_refl 1
      | [r0] =>
        have := addCommentV2_threads_existing db m p r0 (by rw [hp]; exact hl)
        rw [hp] at this; rw [this]; exact Nat.le_refl 1
      | r0 :: r1 :: l => rw [hl] at h; simp at h
    have := ih (addCommentV2 db m p) (fun q hq => hu q (List.mem_cons_of_mem _ hq))
      hstep
    simpa [runAdds, List.foldl_cons] using this

/-- C7 (amended): for variant 2 of `POST /comments/:movieId`, a thread
record for `(owner, movieId)` is created exactly on the first comment when
none exists (first conjunct), a subsequent post appends to the existing
record non-destructively — same id, same rating, prior comments kept as a
prefix (second conjunct) — and any sequence of posts for the key leaves at
most one thread record (third conjunct). In each case the stored comment is
timestamped with the server clock at acceptance; the client body's
`createdAt` field is never consulted. Variant 3 instead creates an extra
`Rating` document on every post, so several thread records per key exist
(see the counterexample). -/
theorem C7_amended_single_thread_append (db : DB) (m u : Nat) :
    (∀ body : CommentBody, body.userId = u → threads db u m = [] →
      threads (addCommentV2 db m body) u m =
        [⟨db.idCtr, u, m, 0,
          [⟨db.idCtr + 1, body.comment, body.username, db.clock⟩]⟩]) ∧
    (∀ (body : CommentBody) (r0 : RatingDoc), body.userId = u →
      threads db u m = [r0] →
      threads (addCommentV2 db m body) u m =
        [{ r0 with comments := r0.comments ++
            [⟨db.idCtr, body.comment, body.username, db.clock⟩] }]) ∧
    (∀ ps : List CommentBody, (∀ p ∈ ps, p.userId = u) →
      (threads db u m).length ≤ 1 →
      (threads (runAdds db m ps) u m).length ≤ 1) := by
  refine ⟨?_, ?_, ?_⟩
  · intro body hbu h
    have := addCommentV2_threads_empty db m body (by rw [hbu]; exact h)
    rwa [hbu] at this
  · intro body r0 hbu h
    have := addCommentV2_threads_existing db m body r0 (by rw [hbu]; exact h)
    rwa [hbu] at this
  · intro ps hu h
    exact runAdds_length m u ps db hu h

/-- C7 counterexample: in variant 3 of `POST /comments/:movieId`, two
comment posts by the same owner on the same movie leave two `Rating`
documents for the key `(1, 5)` — the second post created another thread
record instead of only appending — refuting "at most one thread record
exists per key after the sequence" for the cited variant-3 source. -/
theorem C7_counterexample_v3_duplicate_threads :
    (threads (addCommentV3
        (addCommentV3 dbEmpty 5 ⟨1, "great film", "alice", none⟩)
        5 ⟨1, "second take", "alice", none⟩) 1 5).length = 2 := by
  decide

/-! ## Lemmas about accounts and sessions -/

theorem tokDistinct_symm : ∀ a b : Tok, tokDistinct a b → tokDistinct b a := by
  intro a b h
  cases a <;> cases b <;> simp_all [tokDistinct]
  omega

theorem tokBound_mono (c : Nat) (t : Tok) (h : tokBound c t) :
    tokBound (c + 1) t := by
  cases t <;> simp_all [tokBound]
  omega

theorem saveDoc_id (u : UserDoc) : (saveDoc u).id = u.id := by
  unfold saveDoc; split <;> rfl

theorem saveDoc_username (u : UserDoc) :
    (saveDoc u).username = u.username := by
  unfold saveDoc; split <;> rfl

theorem saveDoc_accessToken (u : UserDoc) :
    (saveDoc u).accessToken = u.accessToken := by
  unfold saveDoc; split <;> rfl

theorem saveDoc_pwModified (u : UserDoc) :
    (saveDoc u).pwModified = false := by
  unfold saveDoc
  split
  · rfl
  · next hc => exact Bool.eq_false_iff.mpr hc

theorem saveDoc_of_clean (u : UserDoc) (h : u.pwModified = false) :
    saveDoc u = u := by
  unfold saveDoc
  rw [if_neg (by simp [h])]

theorem mem_updateOneUser (p : UserDoc → Bool) (f : UserDoc → UserDoc) :
    ∀ (l : List UserDoc) (v : UserDoc), v ∈ updateOneUser p f l →
      ∃ w ∈ l, v = w ∨ v = f w := by
  intro l
  induction l with
  | nil => intro v hv; simp [updateOneUser] at hv
  | cons u us ih =>
    intro v hv
    by_cases hu : p u = true
    · simp only [updateOneUser, hu, if_pos] at hv
      rcases List.mem_cons.mp hv with rfl | hv
      · exact ⟨u, List.mem_cons_self _ _, Or.inr rfl⟩
      · exact ⟨v, List.mem_cons_of_mem _ hv, Or.inl rfl⟩
    · simp only [updateOneUser, hu] at hv
      rw [if_neg (by simp)] at hv
      rcases List.mem_cons.mp hv with rfl | hv
      · exact ⟨v, List.mem_cons_self _ _, Or.inl rfl⟩
      · obtain ⟨w, hw, hvw⟩ := ih v hv
        exact ⟨w, List.mem_cons_of_mem _ hw, hvw⟩

theorem pairwise_updateOneUser (p : UserDoc → Bool) (f : UserDoc → UserDoc)
    (R : UserDoc → UserDoc → Prop)
    (hf : ∀ a b, R a b → R (f a) b) (hg : ∀ a b, R a b → R a (f b)) :
    ∀ l : List UserDoc, l.Pairwise R → (updateOneUser p f l).Pairwise R := by
  intro l
  induction l with
  | nil => intro _; exact List.Pairwise.nil
  | cons u us ih =>
    intro hl
    rw [List.pairwise_cons] at hl
    by_cases hu : p u = true
    · simp only [updateOneUser, hu, if_pos]
      exact List.pairwise_cons.mpr ⟨fun v hv => hf u v (hl.1 v hv), hl.2⟩
    · simp only [updateOneUser, hu]
      rw [if_neg (by simp)]
      refine List.pairwise_cons.mpr ⟨?_, ih hl.2⟩
      intro v hv
      obtain ⟨w, hw, hvw⟩ := mem_updateOneUser p f us v hv
      rcases hvw with h1 | h1
      · rw [h1]; exact hl.1 w hw
      · rw [h1]; exact hg u w (hl.1 w hw)

/-- The invariant `good` holds for the empty store. -/
theorem good_dbEmpty : good dbEmpty :=
  ⟨by intro u hu; simp [dbEmpty] at hu,
   by intro u hu; simp [dbEmpty] at hu,
   by intro u hu; simp [dbEmpty] at hu,
   List.Pairwise.nil, List.Pairwise.nil⟩

theorem good_signup (db : DB) (un em pw : String) (h : good db) :
    good (signup db un em pw).1 := by
  obtain ⟨h1, h2, h3, h4, h5⟩ := h
  have husers : (signup db un em pw).1.users = db.users ++
      [{ id := db.idCtr, username := un, email := em,
         password := hashSync (Pw.plain pw),
         accessToken := Tok.gen db.tokenCtr, pwModified := false }] := rfl
  have hid : (signup db un em pw).1.idCtr = db.idCtr + 1 := rfl
  have htok : (signup db un em pw).1.tokenCtr = db.tokenCtr + 1 := rfl
  refine ⟨?_, ?_, ?_, ?_, ?_⟩
  · intro v hv
    rw [husers] at hv
    rw [hid]
    rcases List.mem_append.mp hv with hv | hv
    · exact Nat.lt_succ_of_lt (h1 v hv)
    · simp only [List.mem_singleton] at hv
      subst hv
      exact Nat.lt_succ_self _
  · intro v hv
    rw [husers] at hv
    rw [htok]
    rcases List.mem_append.mp hv with hv | hv
    · exact tokBound_mono _ _ (h2 v hv)
    · simp only [List.mem_singleton] at hv
      subst hv
      simp [tokBound]
  · intro v hv
    rw [husers] at hv
    rcases List.mem_append.mp hv with hv | hv
    · exact h3 v hv
    · simp only [List.mem_singleton] at hv
      subst hv
      rfl
  · rw [husers, List.pairwise_append]
    refine ⟨h4, List.pairwise_singleton _ _, ?_⟩
    intro a ha b hb
    simp only [List.mem_singleton] at hb
    subst hb
    exact Nat.ne_of_lt (h1 a ha)
  · rw [husers, List.pairwise_append]
    refine ⟨h5, List.pairwise_singleton _ _, ?_⟩
    intro a ha b hb
    simp only [List.mem_singleton] at hb
    subst hb
    have hb2 := h2 a ha
    cases hta : a.accessToken with
    | gen k =>
      rw [hta] at hb2
      simp only [tokBound] at hb2
      simp only [tokDistinct]
      omega
    | zero => simp [tokDistinct]

theorem login_shape (db : DB) (un pw : String) :
    login db un pw = (db, none) ∨
    ∃ u, db.users.find? (fun v => v.username = un) = some u ∧
      compareSync pw u.password = true ∧
      login db un pw = (loginSuccessStore db u, some (Tok.gen db.tokenCtr)) := by
  cases hf : db.users.find? (fun v => v.username = un) with
  | none =>
    left
    unfold login
    rw [hf]
  | some u =>
    by_cases hc : compareSync pw u.password = true
    · right
      refine ⟨u, rfl, hc, ?_⟩
      unfold login
      rw [hf]
      show (if compareSync pw u.password = true then _ else _) = _
      rw [if_pos hc]
      rfl
    · left
      unfold login
      rw [hf]
      show (if compareSync pw u.password = true then _ else _) = _
      rw [if_neg hc]

theorem good_login (db : DB) (un pw : String) (h : good db) :
    good (login db un pw).1 := by
  rcases login_shape db un pw with heq | ⟨u, hf, hc, heq⟩
  · rw [heq]; exact h
  · rw [heq]
    obtain ⟨h1, h2, h3, h4, h5⟩ := h
    have hu : u ∈ db.users := List.mem_of_find?_eq_some hf
    have hclean : ({ u with accessToken := Tok.gen db.tokenCtr } :
        UserDoc).pwModified = false := h3 u hu
    have hu' : saveDoc { u with accessToken := Tok.gen db.tokenCtr } =
        { u with accessToken := Tok.gen db.tokenCtr } :=
      saveDoc_of_clean _ hclean
    have husers : (loginSuccessStore db u).users =
        db.users.map (fun v => if v.id = u.id then
          { u with accessToken := Tok.gen db.tokenCtr } else v) := by
      show putUser db.users u.id
        (saveDoc { u with accessToken := Tok.gen db.tokenCtr }) = _
      rw [hu']
      rfl
    have hgid : ∀ v : UserDoc,
        ((if v.id = u.id then { u with accessToken := Tok.gen db.tokenCtr }
          else v) : UserDoc).id = v.id := by
      intro v
      by_cases hv : v.id = u.id
      · rw [if_pos hv]; exact hv.symm
      · rw [if_neg hv]
    refine ⟨?_, ?_, ?_, ?_, ?_⟩
    · intro v hv
      rw [husers] at hv
      obtain ⟨w, hw, hvw⟩ := List.mem_map.mp hv
      rw [← hvw]
      show (if w.id = u.id then _ else w : UserDoc).id <
        (loginSuccessStore db u).idCtr
      rw [hgid w]
      exact h1 w hw
    · intro v hv
      rw [husers] at hv
      obtain ⟨w, hw, hvw⟩ := List.mem_map.mp hv
      rw [← hvw]
      show tokBound (loginSuccessStore db u).tokenCtr
        (if w.id = u.id then _ else w : UserDoc).accessToken
      by_cases hwid : w.id = u.id
      · rw [if_pos hwid]
        show tokBound (db.tokenCtr + 1) (Tok.gen db.tokenCtr)
        simp [tokBound]
      · rw [if_neg hwid]
        exact tokBound_mono _ _ (h2 w hw)
    · intro v hv
      rw [husers] at hv
      obtain ⟨w, hw, hvw⟩ := List.mem_map.mp hv
      rw [← hvw]
      by_cases hwid : w.id = u.id
      · rw [if_pos hwid]
        exact h3 u hu
      · rw [if_neg hwid]
        exact h3 w hw
    · show ((loginSuccessStore db u).users).Pairwise (fun a b => a.id ≠ b.id)
      rw [husers, List.pairwise_map]
      refine h4.imp ?_
      intro a b hab
      rw [hgid a, hgid b]
      exact hab
    · show ((loginSuccessStore db u).users).Pairwise
        (fun a b => tokDistinct a.accessToken b.accessToken)
      rw [husers, List.pairwise_map]
      refine (h4.and h5).imp_of_mem ?_
      intro a b ha hb hab
      obtain ⟨hid, htok⟩ := hab
      by_cases haid : a.id = u.id
      · have hbid : ¬ b.id = u.id := fun hb' => hid (haid.trans hb'.symm)
        rw [if_pos haid, if_neg hbid]
        have hba := h2 b hb
        cases htb : b.accessToken with
        | gen k =>
          rw [htb] at hba
          simp only [tokBound] at hba
          simp only [tokDistinct]
          omega
        | zero => simp [tokDistinct]
      · by_cases hbid : b.id = u.id
        · rw [if_neg haid, if_pos hbid]
          have hba := h2 a ha
          cases hta : a.accessToken with
          | gen k =>
            rw [hta] at hba
            simp only [tokBound] at hba
            simp only [tokDistinct]
            omega
          | zero => simp [tokDistinct]
        · rw [if_neg haid, if_neg hbid]
          exact htok

theorem good_logout (db : DB) (t : Tok) (h : good db) :
    good (logout db t).1 := by
  unfold logout
  cases ha : authenticateUser db t with
  | none => exact h
  | some u =>
    obtain ⟨h1, h2, h3, h4, h5⟩ := h
    refine ⟨?_, ?_, ?_, ?_, ?_⟩
    · intro v hv
      obtain ⟨w, hw, hvw⟩ := mem_updateOneUser _ _ db.users v hv
      rcases hvw with h6 | h6 <;> rw [h6] <;> exact h1 w hw
    · intro v hv
      obtain ⟨w, hw, hvw⟩ := mem_updateOneUser _ _ db.users v hv
      rcases hvw with h6 | h6 <;> rw [h6]
      · exact h2 w hw
      · show tokBound db.tokenCtr Tok.zero
        trivial
    · intro v hv
      obtain ⟨w, hw, hvw⟩ := mem_updateOneUser _ _ db.users v hv
      rcases hvw with h6 | h6 <;> rw [h6] <;> exact h3 w hw
    · exact pairwise_updateOneUser (fun v => v.accessToken = t)
        (fun v => { v with accessToken := Tok.zero })
        (fun a b => a.id ≠ b.id)
        (fun a b hab => hab) (fun a b hab => hab) db.users h4
    · refine pairwise_updateOneUser (fun v => v.accessToken = t)
        (fun v => { v with accessToken := Tok.zero })
        (fun a b => tokDistinct a.accessToken b.accessToken)
        ?_ ?_ db.users h5
      · intro a b _
        show tokDistinct Tok.zero b.accessToken
        cases b.accessToken <;> trivial
      · intro a b _
        show tokDistinct a.accessToken Tok.zero
        cases a.accessToken <;> trivial

theorem good_runOp (db : DB) (op : Op) (h : good db) : good (runOp db op).1 := by
  cases op with
  | signup un em pw => exact good_signup db un em pw h
  | login un pw =>
    have heq : (runOp db (Op.login un pw)).1 = (login db un pw).1 := by
      show (match login db un pw with
        | (db2, some t) => (db2, [t])
        | (db2, none) => (db2, ([] : List Tok))).1 = (login db un pw).1
      cases hl : login db un pw with
      | mk db2 r => cases r <;> rfl
    rw [heq]
    exact good_login db un pw h
  | logout t => exact good_logout db t h

theorem good_run : ∀ (ops : List Op) (db : DB), good db → good (run db ops).1 := by
  intro ops
  induction ops with
  | nil => intro db h; exact h
  | cons op ops ih =>
    intro db h
    have : (run db (op :: ops)).1 = (run (runOp db op).1 ops).1 := rfl
    rw [this]
    exact ih (runOp db op).1 (good_runOp db op h)

theorem logout_tokenCtr (db : DB) (t : Tok) :
    (logout db t).1.tokenCtr = db.tokenCtr := by
  unfold logout
  cases authenticateUser db t <;> rfl

theorem runOp_tokenCtr_le (db : DB) (op : Op) :
    db.tokenCtr ≤ (runOp db op).1.tokenCtr := by
  cases op with
  | signup un em pw => exact Nat.le_succ _
  | login un pw =>
    have heq2 : (runOp db (Op.login un pw)).1 = (login db un pw).1 := by
      show (match login db un pw with
        | (db2, some t) => (db2, [t])
        | (db2, none) => (db2, ([] : List Tok))).1 = (login db un pw).1
      cases hl : login db un pw with
      | mk db2 r => cases r <;> rfl
    rw [heq2]
    rcases login_shape db un pw with heq | ⟨u, _, _, heq⟩ <;> rw [heq]
    exact Nat.le_succ _
  | logout t =>
    have : (runOp db (Op.logout t)).1 = (logout db t).1 := rfl
    rw [this, logout_tokenCtr]

theorem run_tokenCtr_le : ∀ (ops : List Op) (db : DB),
    db.tokenCtr ≤ (run db ops).1.tokenCtr := by
  intro ops
  induction ops with
  | nil => intro db; exact Nat.le_refl _
  | cons op ops ih =>
    intro db
    have : (run db (op :: ops)).1 = (run (runOp db op).1 ops).1 := rfl
    rw [this]
    exact Nat.le_trans (runOp_tokenCtr_le db op) (ih (runOp db op).1)

theorem runOp_issued (db : DB) (op : Op) :
    ∀ t ∈ (runOp db op).2, ∃ k, t = Tok.gen k ∧ k < (runOp db op).1.tokenCtr := by
  cases op with
  | signup un em pw =>
    intro t ht
    have h2 : (runOp db (Op.signup un em pw)).2 = [Tok.gen db.tokenCtr] := rfl
    rw [h2] at ht
    simp only [List.mem_singleton] at ht
    subst ht
    exact ⟨db.tokenCtr, rfl, Nat.lt_succ_self _⟩
  | login un pw =>
    intro t ht
    have hmatch : runOp db (Op.login un pw) =
        (match login db un pw with
          | (db2, some t) => (db2, [t])
          | (db2, none) => (db2, ([] : List Tok))) := rfl
    rcases login_shape db un pw with heq | ⟨u, _, _, heq⟩
    · have h2 : (runOp db (Op.login un pw)).2 = [] := by
        rw [hmatch, heq]
      rw [h2] at ht
      cases ht
    · have h2 : (runOp db (Op.login un pw)).2 = [Tok.gen db.tokenCtr] := by
        rw [hmatch, heq]
      have h1 : (runOp db (Op.login un pw)).1.tokenCtr = db.tokenCtr + 1 := by
        rw [hmatch, heq]
        rfl
      rw [h2] at ht
      simp only [List.mem_singleton] at ht
      subst ht
      exact ⟨db.tokenCtr, rfl, by rw [h1]; exact Nat.lt_succ_self _⟩
  | logout t' =>
    intro t ht
    have h2 : (runOp db (Op.logout t')).2 = [] := rfl
    rw [h2] at ht
    cases ht

theorem run_issued : ∀ (ops : List Op) (db : DB) (t : Tok),
    t ∈ (run db ops).2 → ∃ k, t = Tok.gen k ∧ k < (run db ops).1.tokenCtr := by
  intro ops
  induction ops with
  | nil => intro db t ht; cases ht
  | cons op ops ih =>
    intro db t ht
    have hr : run db (op :: ops) =
        ((run (runOp db op).1 ops).1,
          (runOp db op).2 ++ (run (runOp db op).1 ops).2) := rfl
    rw [hr] at ht ⊢
    rcases List.mem_append.mp ht with ht | ht
    · obtain ⟨k, hk, hlt⟩ := runOp_issued db op t ht
      exact ⟨k, hk, Nat.lt_of_lt_of_le hlt (run_tokenCtr_le ops (runOp db op).1)⟩
    · exact ih (runOp db op).1 t ht

theorem find?_putUser (uname : String) :
    ∀ (us : List UserDoc) (u u' : UserDoc),
      us.Pairwise (fun a b => a.id ≠ b.id) →
      us.find? (fun v => v.username = uname) = some u →
      u'.username = u.username →
      (putUser us u.id u').find? (fun v => v.username = uname) = some u' := by
  intro us
  induction us with
  | nil => intro u u' _ hfind _; cases hfind
  | cons v vs ih =>
    intro u u' hpair hfind hun
    rw [List.pairwise_cons] at hpair
    by_cases hv : (v.username = uname)
    · have hvu : v = u := by
        rw [List.find?_cons_of_pos _ (by simpa using hv)] at hfind
        exact Option.some_inj.mp hfind
      subst hvu
      show ((if v.id = v.id then u' else v) :: putUser vs v.id u').find?
        (fun w => w.username = uname) = some u'
      rw [if_pos rfl]
      rw [List.find?_cons_of_pos _ (by simp [hun, hv])]
    · have hfind' : vs.find? (fun w => w.username = uname) = some u := by
        rwa [List.find?_cons_of_neg _ (by simpa using hv)] at hfind
      have hu_mem : u ∈ vs := List.mem_of_find?_eq_some hfind'
      have hne : v.id ≠ u.id := hpair.1 u hu_mem
      show ((if v.id = u.id then u' else v) :: putUser vs u.id u').find?
        (fun w => w.username = uname) = some u'
      rw [if_neg hne]
      rw [List.find?_cons_of_neg _ (by simpa using hv)]
      exact ih u u' hpair.2 hfind' hun

theorem tokDistinct_symmetric :
    Symmetric (fun a b : UserDoc => tokDistinct a.accessToken b.accessToken) :=
  fun _ _ hab => tokDistinct_symm _ _ hab

theorem idNe_symmetric :
    Symmetric (fun a b : UserDoc => a.id ≠ b.id) :=
  fun _ _ hab h => hab h.symm

theorem loginSuccessStore_users (db : DB) (u : UserDoc)
    (hclean : u.pwModified = false) :
    (loginSuccessStore db u).users =
      db.users.map (fun v => if v.id = u.id then
        { u with accessToken := Tok.gen db.tokenCtr } else v) := by
  show putUser db.users u.id
    (saveDoc { u with accessToken := Tok.gen db.tokenCtr }) = _
  rw [saveDoc_of_clean { u with accessToken := Tok.gen db.tokenCtr } hclean]
  rfl

theorem login_success_of_find (db : DB) (uname pw : String) (u : UserDoc)
    (hfind : db.users.find? (fun v => v.username = uname) = some u)
    (hcmp : compareSync pw u.password = true) :
    login db uname pw =
      (loginSuccessStore db u, some (Tok.gen db.tokenCtr)) := by
  unfold login
  rw [hfind]
  show (if compareSync pw u.password = true then _ else _) = _
  rw [if_pos hcmp]
  rfl

/-- C1 (amended): for the rotating-login variants (`src/unnamed/part_000`
and variants 2–3 of `src/server.js`), from any state reached by a trace of
account requests on the empty store, a login with an account's username and
correct plaintext password succeeds and returns the fresh random draw
`Tok.gen db1.tokenCtr`, which differs from every token issued earlier in the
trace; the draw is persisted as that account's `accessToken`, replacing the
prior one, and the replaced generated token no longer authenticates in the
new store. In variant 1 of `src/server.js` the login endpoint returns the
stored token unchanged, so the original claim fails there (see the
counterexample). -/
theorem C1_amended_login_rotates (ops : List Op) (db1 : DB)
    (issued : List Tok) (uname pw : String) (u : UserDoc)
    (hrun : run dbEmpty ops = (db1, issued))
    (hfind : db1.users.find? (fun v => v.username = uname) = some u)
    (hpw : u.password = Pw.hashed (Pw.plain pw)) :
    (login db1 uname pw).2 = some (Tok.gen db1.tokenCtr) ∧
    Tok.gen db1.tokenCtr ∉ issued ∧
    (∀ v ∈ (login db1 uname pw).1.users, v.id = u.id →
      v.accessToken = Tok.gen db1.tokenCtr) ∧
    (∀ k, u.accessToken = Tok.gen k →
      authenticateUser (login db1 uname pw).1 (Tok.gen k) = none) := by
  have hgood : good db1 := by
    have hg := good_run ops dbEmpty good_dbEmpty
    rw [hrun] at hg
    exact hg
  obtain ⟨h1, h2, h3, h4, h5⟩ := hgood
  have hu : u ∈ db1.users := List.mem_of_find?_eq_some hfind
  have hcmp : compareSync pw u.password = true := by
    rw [hpw]; simp [compareSync]
  have hlogin := login_success_of_find db1 uname pw u hfind hcmp
  have husers : (login db1 uname pw).1.users =
      db1.users.map (fun v => if v.id = u.id then
        { u with accessToken := Tok.gen db1.tokenCtr } else v) := by
    rw [hlogin]
    exact loginSuccessStore_users db1 u (h3 u hu)
  refine ⟨by rw [hlogin], ?_, ?_, ?_⟩
  · intro hmem
    obtain ⟨k, hk, hlt⟩ := run_issued ops dbEmpty (Tok.gen db1.tokenCtr)
      (by rw [hrun]; exact hmem)
    rw [hrun] at hlt
    have hlt2 : k < db1.tokenCtr := hlt
    have hkk : db1.tokenCtr = k := by
      injection hk
    omega
  · intro v hv hvid
    rw [husers] at hv
    obtain ⟨w, hw, hvw⟩ := List.mem_map.mp hv
    by_cases hwid : w.id = u.id
    · rw [← hvw, if_pos hwid]
    · exfalso
      rw [← hvw] at hvid
      rw [if_neg hwid] at hvid
      exact hwid hvid
  · intro k hk
    have hkbound : k < db1.tokenCtr := by
      have hb := h2 u hu
      rw [hk] at hb
      simpa [tokBound] using hb
    show (login db1 uname pw).1.users.find?
      (fun v => v.accessToken = Tok.gen k) = none
    rw [husers, List.find?_eq_none]
    intro x hx
    obtain ⟨w, hw, hvw⟩ := List.mem_map.mp hx
    by_cases hwid : w.id = u.id
    · rw [← hvw, if_pos hwid]
      simp only [decide_eq_true_eq]
      intro hcontra
      have : db1.tokenCtr = k := by
        injection hcontra
      omega
    · rw [← hvw, if_neg hwid]
      simp only [decide_eq_true_eq]
      intro hw2
      have hne : w ≠ u := fun hwu => hwid (by rw [hwu])
      have hdist := (h5.forall tokDistinct_symmetric) hw hu hne
      rw [hw2, hk] at hdist
      simp only [tokDistinct] at hdist
      exact hdist rfl

/-- C1 counterexample: in variant 1 of `src/server.js` the login endpoint
does not rotate the token. After a signup that issued `Tok.gen 0`, a login
with the correct credentials returns that same previously-issued token
(refuting "the token returned by a login differs from every token
previously issued for that account"), and the prior token still
authenticates afterwards (refuting "authenticating with the replaced prior
token afterwards fails"). -/
theorem C1_counterexample_v1_login_not_fresh :
    (loginV1 (signup dbEmpty "alice" "alice@x.com" "hunter2").1
        "alice" "hunter2").2 =
      some (signup dbEmpty "alice" "alice@x.com" "hunter2").2.2 ∧
    (signup dbEmpty "alice" "alice@x.com" "hunter2").2.2 = Tok.gen 0 ∧
    (authenticateUser (loginV1 (signup dbEmpty "alice" "alice@x.com"
        "hunter2").1 "alice" "hunter2").1 (Tok.gen 0)).isSome = true :=
  ⟨rfl, rfl, rfl⟩

/-- C2: the sentinel stored by `POST /sessions/logout` of
`src/unnamed/part_000` is the plain string `"0"`, and `authenticateUser`
is an exact-match lookup, so presenting `"0"` as the bearer token after a
logout authenticates as the logged-out account instead of failing — the
claim's "the sentinel no-active-session value stored by logout never
matches any account" is violated by the code. -/
theorem C2_sentinel_matches_after_logout :
    authenticateUser
      (logout (signup dbEmpty "alice" "alice@x.com" "hunter2").1
        (Tok.gen 0)).1 Tok.zero =
    some ⟨0, "alice", "alice@x.com", Pw.hashed (Pw.plain "hunter2"),
      Tok.zero, false⟩ := rfl

/-- C4: the pre-save hook recomputes the credential hash exactly when the
plaintext password path is marked modified (first conjunct); the save
performed by a successful login changes no account's stored password hash
(second conjunct); and after a successful login, logging in again with the
same original password still succeeds (third conjunct). -/
theorem C4_conditional_hashing (db : DB) (uname pw : String) (h : good db) :
    (∀ v : UserDoc, (saveDoc v).password =
      (if v.pwModified then hashSync v.password else v.password)) ∧
    ((login db uname pw).1.users.map (fun v => (v.id, v.password)) =
      db.users.map (fun v => (v.id, v.password))) ∧
    ((login db uname pw).2.isSome = true →
      (login (login db uname pw).1 uname pw).2.isSome = true) := by
  obtain ⟨h1, h2, h3, h4, h5⟩ := h
  refine ⟨?_, ?_, ?_⟩
  · intro v
    by_cases hv : v.pwModified = true
    · rw [if_pos hv]
      show (saveDoc v).password = hashSync v.password
      unfold saveDoc
      rw [if_pos hv]
    · rw [if_neg hv]
      show (saveDoc v).password = v.password
      unfold saveDoc
      rw [if_neg hv]
  · rcases login_shape db uname pw with heq | ⟨u, hf, hc, heq⟩
    · rw [heq]
    · rw [heq]
      have hu : u ∈ db.users := List.mem_of_find?_eq_some hf
      show ((loginSuccessStore db u).users).map (fun v => (v.id, v.password)) = _
      rw [loginSuccessStore_users db u (h3 u hu), List.map_map]
      apply List.map_congr_left
      intro v hv
      by_cases hvid : v.id = u.id
      · have hvu : v = u := by
          by_contra hne
          exact ((h4.forall idNe_symmetric) hv hu hne) hvid
        subst hvu
        simp
      · simp only [Function.comp_apply, if_neg hvid]
  · rcases login_shape db uname pw with heq | ⟨u, hf, hc, heq⟩
    · intro hsome
      rw [heq] at hsome
      simp at hsome
    · intro _
      have hu : u ∈ db.users := List.mem_of_find?_eq_some hf
      have hfind2 : (loginSuccessStore db u).users.find?
          (fun v => v.username = uname) =
          some { u with accessToken := Tok.gen db.tokenCtr } := by
        have h6 := find?_putUser uname db.users u
          { u with accessToken := Tok.gen db.tokenCtr } h4 hf rfl
        show (putUser db.users u.id
          (saveDoc { u with accessToken := Tok.gen db.tokenCtr })).find?
            (fun v => v.username = uname) = _
        rw [saveDoc_of_clean { u with accessToken := Tok.gen db.tokenCtr }
          (h3 u hu)]
        exact h6
      have hcmp2 : compareSync pw
          ({ u with accessToken := Tok.gen db.tokenCtr } :
            UserDoc).password = true := hc
      have := login_success_of_find (loginSuccessStore db u) uname pw
        { u with accessToken := Tok.gen db.tokenCtr } hfind2 hcmp2
      rw [heq]
      show (login (loginSuccessStore db u) uname pw).2.isSome = true
      rw [this]
      rfl

/-! ## Witnesses: the main theorems applied at concrete stores -/

theorem C1_amended_login_rotates_witness :
    run dbEmpty [Op.signup "alice" "alice@x.com" "hunter2"] =
      (dbAlice, [Tok.gen 0]) ∧
    dbAlice.users.find? (fun v => v.username = "alice") = some userAlice ∧
    userAlice.password = Pw.hashed (Pw.plain "hunter2") ∧
    ((login dbAlice "alice" "hunter2").2 = some (Tok.gen 1) ∧
      Tok.gen 1 ∉ [Tok.gen 0] ∧
      (∀ v ∈ (login dbAlice "alice" "hunter2").1.users, v.id = userAlice.id →
        v.accessToken = Tok.gen 1) ∧
      (∀ k, userAlice.accessToken = Tok.gen k →
        authenticateUser (login dbAlice "alice" "hunter2").1 (Tok.gen k) =
          none)) :=
  ⟨rfl, rfl, rfl,
    C1_amended_login_rotates [Op.signup "alice" "alice@x.com" "hunter2"]
      dbAlice [Tok.gen 0] "alice" "hunter2" userAlice rfl rfl rfl⟩

theorem C3_watchlist_witness :
    (pairEntries dbEmpty 1 42).length ≤ 1 ∧
    ((∀ pre suf, [true, false] = pre ++ suf →
        (pairEntries (runSets dbEmpty 1 42 pre) 1 42).length ≤ 1) ∧
      (∀ b, [true, false].getLast? = some b →
        ∃ w, pairEntries (runSets dbEmpty 1 42 [true, false]) 1 42 = [w] ∧
          w.watchlist = b)) :=
  ⟨by decide,
    C3_watchlist_upsert_last_write_wins dbEmpty 1 42 [true, false]
      (by decide)⟩

theorem C4_conditional_hashing_witness :
    good dbAlice ∧
    ((∀ v : UserDoc, (saveDoc v).password =
        (if v.pwModified then hashSync v.password else v.password)) ∧
      ((login dbAlice "alice" "hunter2").1.users.map
          (fun v => (v.id, v.password)) =
        dbAlice.users.map (fun v => (v.id, v.password))) ∧
      ((login dbAlice "alice" "hunter2").2.isSome = true →
        (login (login dbAlice "alice" "hunter2").1 "alice"
          "hunter2").2.isSome = true)) :=
  ⟨by unfold good; decide,
    C4_conditional_hashing dbAlice "alice" "hunter2" (by unfold good; decide)⟩

theorem C6_remove_witness :
    threads dbThread 1 5 = [ratingDocA] ∧
    (threads (deleteComment dbThread 5 1 1).1 1 5 =
        [{ ratingDocA with
            comments := ratingDocA.comments.filter (fun c => c.id ≠ 1) }] ∧
      (∀ d ∈ dbThread.ratings, ratingKey 1 5 d = false →
        d ∈ (deleteComment dbThread 5 1 1).1.ratings) ∧
      (deleteComment dbThread 5 1 1).2.modifiedCount =
        (if ratingDocA.comments.any (fun c => c.id = 1) then 1 else 0) ∧
      (deleteComment dbThread 5 1 1).2.matchedCount = 1) :=
  ⟨rfl, C6_remove_scoped_and_signalled dbThread 5 1 1 ratingDocA rfl⟩

theorem C7_amended_witness :
    threads dbEmpty 1 5 = [] ∧
    threads (addCommentV2 dbEmpty 5 ⟨1, "great film", "alice", none⟩) 1 5 =
      [⟨0, 1, 5, 0, [⟨1, "great film", "alice", 0⟩]⟩] ∧
    threads dbC7 1 5 = [⟨0, 1, 5, 0, [⟨1, "great film", "alice", 0⟩]⟩] ∧
    threads (addCommentV2 dbC7 5 ⟨1, "nice", "alice", some 99⟩) 1 5 =
      [⟨0, 1, 5, 0, [⟨1, "great film", "alice", 0⟩,
        ⟨2, "nice", "alice", 1⟩]⟩] ∧
    (threads (runAdds dbEmpty 5
      [⟨1, "a", "alice", none⟩, ⟨1, "b", "alice", none⟩]) 1 5).length ≤ 1 :=
  ⟨rfl,
    (C7_amended_single_thread_append dbEmpty 5 1).1
      ⟨1, "great film", "alice", none⟩ rfl rfl,
    rfl,
    (C7_amended_single_thread_append dbC7 5 1).2.1
      ⟨1, "nice", "alice", some 99⟩
      ⟨0, 1, 5, 0, [⟨1, "great film", "alice", 0⟩]⟩ rfl rfl,
    (C7_amended_single_thread_append dbEmpty 5 1).2.2
      [⟨1, "a", "alice", none⟩, ⟨1, "b", "alice", none⟩]
      (by decide) (by decide)⟩

theorem C8_false_write_witness :
    pairEntries dbEmpty 3 7 = [] ∧
    ((∃ w, pairEntries (setWanted dbEmpty 3 7 false) 3 7 = [w] ∧
        w.watchlist = false) ∧
      (∀ (db' : DB) (u' : Nat) (w : WatchDoc),
        w ∈ getWatchlist db' u' ↔
          w ∈ db'.watchMovies ∧ w.userId = u' ∧ w.watchlist = true) ∧
      (∀ w ∈ getWatchlist (setWanted dbEmpty 3 7 false) 3, w.movieId ≠ 7)) :=
  ⟨rfl, C8_false_write_creates_and_is_excluded dbEmpty 3 7 rfl⟩

theorem C10_update_witness :
    pairEntries dbWatch 1 5 = [⟨7, 1, 5, false⟩] ∧
    ((∃ w', pairEntries
        (putWatchlist dbWatch 1 ⟨5, true, none⟩) 1 5 = [w'] ∧
      w'.id = 7 ∧ w'.userId = 1 ∧ w'.watchlist = true) ∧
    (putWatchlist ⟨[], [⟨7, 1, 5, false⟩], [], 0, 8, 0⟩ 1
        ⟨5, true, some 2⟩).watchMovies
      = [⟨7, 2, 5, true⟩]) :=
  ⟨rfl, C10_update_applies_whole_body dbWatch 1 5 true ⟨7, 1, 5, false⟩ rfl⟩

end MovieBackend
